import Mathlib

/-!
Verification of the numerical core of the Intro-QC-TRIUMF teaching notebooks.

The repository's computational content is:
  * the parameterized single-qubit rotation `u3 (θ, φ, λ)` documented in
    `01-gate-model-theory/notebooks/Single-Qubit-Gates.ipynb` with matrix
    [[cos(θ/2), −e^{iλ} sin(θ/2)], [e^{iφ} sin(θ/2), e^{i(λ+φ)} cos(θ/2)]],
    applied to the ground state (or, with `start_from_plus`, after a Hadamard);
  * the quantum-teleportation pipeline of the teleportation notebook:
    prepare a random state on qubit 0 via `u3`, build a Bell pair on
    qubits 1 and 2 (`h` then `cx`), basis-change Alice's qubits
    (`cx(0,1)` then `h(0)`), measure qubits 0 and 1, and apply the
    classically-controlled correction `x.c_if(m1)` then `z.c_if(m0)` to
    Bob's qubit 2.

States of one qubit are `Bool → ℂ` (amplitude at basis state `|b⟩`, with
`false = |0⟩`); three-qubit states are `Bool → Bool → Bool → ℂ` with the
arguments being the basis values of qubits 0, 1, 2 in circuit order.
Gates are `Matrix Bool Bool ℂ` applied by `Matrix.mulVec`.
-/

open Complex
open scoped Matrix

noncomputable section

/-- The `u3(θ, φ, λ)` single-qubit rotation as documented in the
gate-model notebook:
`[[cos(θ/2), −e^{iλ} sin(θ/2)], [e^{iφ} sin(θ/2), e^{i(λ+φ)} cos(θ/2)]]`. -/
def u3 (θ φ lam : ℝ) : Matrix Bool Bool ℂ :=
  Matrix.of fun i j =>
    match i, j with
    | false, false => (Real.cos (θ / 2) : ℝ)
    | false, true  => -Complex.exp (lam * I) * (Real.sin (θ / 2) : ℝ)
    | true,  false => Complex.exp (φ * I) * (Real.sin (θ / 2) : ℝ)
    | true,  true  => Complex.exp ((lam + φ) * I) * (Real.cos (θ / 2) : ℝ)

/-- The spec's matrix U(θ,φ,λ), written from the specification text:
entries [[cos(θ/2), −e^{iλ} sin(θ/2)], [e^{iφ} sin(θ/2), e^{i(λ+φ)} cos(θ/2)]]. -/
def Uspec (θ φ lam : ℝ) : Matrix Bool Bool ℂ :=
  Matrix.of fun i j =>
    match i, j with
    | false, false => (Real.cos (θ / 2) : ℝ)
    | false, true  => -Complex.exp (lam * I) * (Real.sin (θ / 2) : ℝ)
    | true,  false => Complex.exp (φ * I) * (Real.sin (θ / 2) : ℝ)
    | true,  true  => Complex.exp ((lam + φ) * I) * (Real.cos (θ / 2) : ℝ)

/-- Pauli X gate `[[0,1],[1,0]]`. -/
def Xmat : Matrix Bool Bool ℂ :=
  Matrix.of fun i j => if i = j then 0 else 1

/-- Pauli Z gate `[[1,0],[0,−1]]`. -/
def Zmat : Matrix Bool Bool ℂ :=
  Matrix.of fun i j =>
    match i, j with
    | false, false => 1
    | true, true => -1
    | _, _ => 0

/-- Hadamard gate `(1/√2)·[[1,1],[1,−1]]`. -/
def Hmat : Matrix Bool Bool ℂ :=
  Matrix.of fun i j =>
    match i, j with
    | true, true => -(((Real.sqrt 2 : ℝ) : ℂ))⁻¹
    | _, _ => (((Real.sqrt 2 : ℝ) : ℂ))⁻¹

/-- Standard X-rotation matrix
`Rx(θ) = [[cos(θ/2), −i sin(θ/2)], [−i sin(θ/2), cos(θ/2)]]`. -/
def Rx (θ : ℝ) : Matrix Bool Bool ℂ :=
  Matrix.of fun i j =>
    match i, j with
    | false, false => (Real.cos (θ / 2) : ℝ)
    | true, true => (Real.cos (θ / 2) : ℝ)
    | _, _ => -I * (Real.sin (θ / 2) : ℝ)

/-- Standard Y-rotation matrix
`Ry(θ) = [[cos(θ/2), −sin(θ/2)], [sin(θ/2), cos(θ/2)]]`. -/
def Ry (θ : ℝ) : Matrix Bool Bool ℂ :=
  Matrix.of fun i j =>
    match i, j with
    | false, false => (Real.cos (θ / 2) : ℝ)
    | false, true => -(Real.sin (θ / 2) : ℝ)
    | true, false => (Real.sin (θ / 2) : ℝ)
    | true, true => (Real.cos (θ / 2) : ℝ)

/-- The phase-rotation family `diag(1, e^{iθ})`: the notebook's Z-rotation
convention, whose special cases are the S gate (θ = π/2) and T gate (θ = π/4). -/
def Pgate (θ : ℝ) : Matrix Bool Bool ℂ :=
  Matrix.of fun i j =>
    match i, j with
    | false, false => 1
    | true, true => Complex.exp (θ * I)
    | _, _ => 0

/-- The symmetric Z-rotation convention `diag(e^{−iθ/2}, e^{iθ/2})`. -/
def RzSym (θ : ℝ) : Matrix Bool Bool ℂ :=
  Matrix.of fun i j =>
    match i, j with
    | false, false => Complex.exp (-(θ / 2) * I)
    | true, true => Complex.exp ((θ / 2) * I)
    | _, _ => 0

/-- The S phase gate `diag(1, i)`. -/
def Smat : Matrix Bool Bool ℂ :=
  Matrix.of fun i j =>
    match i, j with
    | false, false => 1
    | true, true => I
    | _, _ => 0

/-- The T phase gate `diag(1, e^{iπ/4})`. -/
def Tmat : Matrix Bool Bool ℂ :=
  Matrix.of fun i j =>
    match i, j with
    | false, false => 1
    | true, true => Complex.exp ((Real.pi / 4 : ℝ) * I)
    | _, _ => 0

/-- The ground state `|0⟩` of one qubit. -/
def ket0 : Bool → ℂ := fun b => if b then 0 else 1

/-- The excited state `|1⟩` of one qubit. -/
def ket1 : Bool → ℂ := fun b => if b then 1 else 0

/-- The uniform superposition `(|0⟩ + |1⟩)/√2`. -/
def ketPlus : Bool → ℂ := fun _ => (((Real.sqrt 2 : ℝ) : ℂ))⁻¹

/-- A three-qubit state vector: amplitude at `|b0 b1 b2⟩` where `b0, b1`
are Alice's qubits and `b2` is Bob's. -/
def St3 : Type := Bool → Bool → Bool → ℂ

/-- Apply a single-qubit gate on qubit 0 of a three-qubit state. -/
def app0 (U : Matrix Bool Bool ℂ) (ψ : St3) : St3 :=
  fun b0 b1 b2 => ∑ j : Bool, U b0 j * ψ j b1 b2

/-- Apply a single-qubit gate on qubit 1 of a three-qubit state. -/
def app1 (U : Matrix Bool Bool ℂ) (ψ : St3) : St3 :=
  fun b0 b1 b2 => ∑ j : Bool, U b1 j * ψ b0 j b2

/-- Controlled-NOT with control qubit 0 and target qubit 1
(the `teleportation.cx(alice[0], alice[1])` step). -/
def cx01 (ψ : St3) : St3 :=
  fun b0 b1 b2 => ψ b0 (xor b1 b0) b2

/-- Controlled-NOT with control qubit 1 and target qubit 2
(the `teleportation.cx(alice[1], bob[0])` step). -/
def cx12 (ψ : St3) : St3 :=
  fun b0 b1 b2 => ψ b0 b1 (xor b2 b1)

/-- The initial three-qubit state `|000⟩` of the freshly created circuit. -/
def init3 : St3 :=
  fun b0 b1 b2 => if b0 = false ∧ b1 = false ∧ b2 = false then 1 else 0

/-- State after `teleportation.u3(θ, φ, λ, alice[0])`: the random source
state prepared on qubit 0. -/
def prep (θ φ lam : ℝ) : St3 := app0 (u3 θ φ lam) init3

/-- State after the shared-pair cell `teleportation.h(alice[1])` then
`teleportation.cx(alice[1], bob[0])`. -/
def entangled (θ φ lam : ℝ) : St3 := cx12 (app1 Hmat (prep θ φ lam))

/-- State after the basis-change cell `teleportation.cx(alice[0], alice[1])`
then `teleportation.h(alice[0])`. -/
def basisChanged (θ φ lam : ℝ) : St3 := app0 Hmat (cx01 (entangled θ φ lam))

/-- Bob's (unnormalized) conditional state once Alice's qubits have been
measured with outcomes `m0` on qubit 0 and `m1` on qubit 1: the slice of the
basis-changed state at `b0 = m0`, `b1 = m1`. -/
def bobCond (θ φ lam : ℝ) (m0 m1 : Bool) : Bool → ℂ :=
  fun b2 => basisChanged θ φ lam m0 m1 b2

/-- The classically-controlled correction of the notebook:
`teleportation.x(bob[0]).c_if(measurement_1, 1)` applies X when `m1 = 1`,
then `teleportation.z(bob[0]).c_if(measurement_0, 1)` applies Z when
`m0 = 1`. -/
def applyCorrection (m0 m1 : Bool) (v : Bool → ℂ) : Bool → ℂ :=
  Matrix.mulVec (if m0 then Zmat else 1)
    (Matrix.mulVec (if m1 then Xmat else 1) v)

/-- Bob's conditional state after the correction, for outcome pair `(m0, m1)`. -/
def bobFinal (θ φ lam : ℝ) (m0 m1 : Bool) : Bool → ℂ :=
  applyCorrection m0 m1 (bobCond θ φ lam m0 m1)

/-- The source state Alice prepared: `u3(θ,φ,λ)` applied to `|0⟩`. -/
def inputState (θ φ lam : ℝ) : Bool → ℂ :=
  Matrix.mulVec (u3 θ φ lam) ket0

/-- Squared norm of a one-qubit state vector. -/
def norm2 (ψ : Bool → ℂ) : ℝ := ∑ b : Bool, Complex.normSq (ψ b)

/-- Squared norm of a three-qubit state vector. -/
def norm2₃ (ψ : St3) : ℝ :=
  ∑ b0 : Bool, ∑ b1 : Bool, ∑ b2 : Bool, Complex.normSq (ψ b0 b1 b2)

/-- Two-qubit state vector, used for the Bell-pair construction viewed on
qubits `alice[1]` and `bob[0]` alone. -/
def St2 : Type := Bool → Bool → ℂ

/-- The two-qubit ground state `|00⟩`. -/
def init2 : St2 := fun b0 b1 => if b0 = false ∧ b1 = false then 1 else 0

/-- Apply a single-qubit gate on the first qubit of a two-qubit state. -/
def app2fst (U : Matrix Bool Bool ℂ) (ψ : St2) : St2 :=
  fun b0 b1 => ∑ j : Bool, U b0 j * ψ j b1

/-- Controlled-NOT with the first qubit as control, second as target. -/
def cxSnd (ψ : St2) : St2 := fun b0 b1 => ψ b0 (xor b1 b0)

/-- The Bell-pair construction of the teleportation notebook restricted to
the two fresh qubits: Hadamard on the first, then CNOT onto the second. -/
def bellPair : St2 := cxSnd (app2fst Hmat init2)

/-- A three-qubit state holding an arbitrary one-qubit state (α, β) on qubit 0
and the ground state on qubits 1 and 2; `prep` produces exactly this shape. -/
def srcState (α β : ℂ) : St3 :=
  fun b0 b1 b2 => if b1 = false ∧ b2 = false then (if b0 then β else α) else 0

end

lemma conj_cexp_real (x : ℝ) :
    (starRingEnd ℂ) (Complex.exp ((x : ℂ) * I)) = Complex.exp (-((x : ℂ) * I)) := by
  rw [← Complex.exp_conj]
  simp [map_mul, Complex.conj_ofReal, Complex.conj_I]

lemma cexp_real_inv_mul (x : ℝ) :
    Complex.exp (-((x : ℂ) * I)) * Complex.exp ((x : ℂ) * I) = 1 := by
  rw [← Complex.exp_add]
  simp

lemma u3_adjoint_mul (θ φ lam : ℝ) :
    (u3 θ φ lam)ᴴ * (u3 θ φ lam) = 1 := by
  have pyth : ((Real.cos (θ/2) : ℝ) : ℂ)^2 + ((Real.sin (θ/2) : ℝ) : ℂ)^2 = 1 := by
    norm_cast
    exact Real.cos_sq_add_sin_sq _
  have hphi := cexp_real_inv_mul φ
  have hlam := cexp_real_inv_mul lam
  ext i j
  cases i <;> cases j <;>
    simp only [Matrix.mul_apply, Matrix.conjTranspose_apply, Fintype.sum_bool, u3,
      Matrix.of_apply, Matrix.one_apply, Complex.star_def, add_mul, Complex.exp_add,
      map_mul, map_neg, Complex.conj_ofReal, conj_cexp_real, Bool.false_eq_true, Bool.true_eq_false, reduceIte]
  · linear_combination
      (((Real.sin (θ/2) : ℝ) : ℂ) * ((Real.sin (θ/2) : ℝ) : ℂ)) * hphi + pyth
  · linear_combination
      (((Real.cos (θ/2) : ℝ) : ℂ) * ((Real.sin (θ/2) : ℝ) : ℂ)
        * Complex.exp ((lam : ℂ) * I)) * hphi
  · linear_combination
      (((Real.cos (θ/2) : ℝ) : ℂ) * ((Real.sin (θ/2) : ℝ) : ℂ)
        * Complex.exp (-((lam : ℂ) * I))) * hphi
  · linear_combination
      (((Real.cos (θ/2) : ℝ) : ℂ) * ((Real.cos (θ/2) : ℝ) : ℂ)
        * Complex.exp (-((lam : ℂ) * I)) * Complex.exp ((lam : ℂ) * I)) * hphi
      + (Complex.exp (-((lam : ℂ) * I)) * Complex.exp ((lam : ℂ) * I)) * pyth
      + hlam

lemma cexp_real_eval (x : ℝ) :
    Complex.exp ((x : ℂ) * I) = ((Real.cos x : ℝ) : ℂ) + ((Real.sin x : ℝ) : ℂ) * I := by
  rw [Complex.exp_mul_I]
  norm_cast

lemma sqrt_two_half_real : Real.sqrt 2 / 2 = (Real.sqrt 2)⁻¹ := by
  field_simp

lemma sqrt_two_half : ((Real.sqrt 2 / 2 : ℝ) : ℂ) = (((Real.sqrt 2 : ℝ) : ℂ))⁻¹ := by
  rw [sqrt_two_half_real]
  push_cast
  ring_nf

lemma cexp_real_neg_eval (x : ℝ) :
    Complex.exp (-((x : ℂ) * I)) = ((Real.cos x : ℝ) : ℂ) - ((Real.sin x : ℝ) : ℂ) * I := by
  rw [show -((x : ℂ) * I) = ((-x : ℝ) : ℂ) * I by push_cast; ring, cexp_real_eval,
    Real.cos_neg, Real.sin_neg]
  push_cast
  ring

lemma u3_H_eq : u3 (Real.pi/2) 0 Real.pi = Hmat := by
  have h4 : Real.pi / 2 / 2 = Real.pi / 4 := by ring
  ext i j
  cases i <;> cases j <;>
    simp only [u3, Hmat, Matrix.of_apply, h4, Real.cos_pi_div_four, Real.sin_pi_div_four,
      cexp_real_eval, cexp_real_neg_eval, Real.cos_pi, Real.sin_pi, Real.cos_zero,
      Real.sin_zero, Complex.ofReal_zero, Complex.ofReal_neg, Complex.ofReal_one,
      sqrt_two_half, zero_mul, mul_zero, add_zero, zero_add, mul_one, one_mul, neg_mul,
      neg_neg, Complex.exp_zero]

lemma u3_Rx_eq (θ : ℝ) : u3 θ (-(Real.pi/2)) (Real.pi/2) = Rx θ := by
  ext i j
  cases i <;> cases j <;>
    simp only [u3, Rx, Matrix.of_apply, Complex.ofReal_neg, cexp_real_eval,
      cexp_real_neg_eval, Real.cos_pi_div_two, Real.sin_pi_div_two, Complex.ofReal_zero,
      Complex.ofReal_one, zero_mul, mul_zero, add_zero, zero_add, one_mul, mul_one,
      neg_mul, neg_neg, add_neg_cancel, Complex.exp_zero] <;>
    push_cast <;> ring_nf

lemma u3_Ry_eq (θ : ℝ) : u3 θ 0 0 = Ry θ := by
  ext i j
  cases i <;> cases j <;>
    simp only [u3, Ry, Matrix.of_apply, Complex.ofReal_zero, zero_mul, add_zero,
      zero_add, Complex.exp_zero, one_mul, neg_mul, neg_neg]

lemma u3_Pgate_eq (θ : ℝ) : u3 0 0 θ = Pgate θ := by
  have h0 : (0:ℝ) / 2 = 0 := by norm_num
  ext i j
  cases i <;> cases j <;>
    simp only [u3, Pgate, Matrix.of_apply, h0, Real.cos_zero, Real.sin_zero,
      Complex.ofReal_zero, Complex.ofReal_one, zero_mul, mul_zero, add_zero, zero_add,
      Complex.exp_zero, one_mul, mul_one, neg_zero]

lemma u3_S_eq : u3 0 0 (Real.pi/2) = Smat := by
  have h0 : (0:ℝ) / 2 = 0 := by norm_num
  ext i j
  cases i <;> cases j <;>
    simp only [u3, Smat, Matrix.of_apply, h0, Real.cos_zero, Real.sin_zero,
      cexp_real_eval, Real.cos_pi_div_two, Real.sin_pi_div_two, Complex.ofReal_zero,
      Complex.ofReal_one, zero_mul, mul_zero, add_zero, zero_add, Complex.exp_zero,
      one_mul, mul_one, neg_zero]

lemma u3_T_eq : u3 0 0 (Real.pi/4) = Tmat := by
  have h0 : (0:ℝ) / 2 = 0 := by norm_num
  ext i j
  cases i <;> cases j <;>
    simp only [u3, Tmat, Matrix.of_apply, h0, Real.cos_zero, Real.sin_zero,
      Complex.ofReal_zero, Complex.ofReal_one, zero_mul, mul_zero, add_zero, zero_add,
      Complex.exp_zero, one_mul, mul_one, neg_zero]

lemma Pgate_RzSym (θ : ℝ) :
    Pgate θ = Complex.exp (((θ : ℂ)/2) * I) • RzSym θ := by
  ext i j
  cases i <;> cases j <;>
    simp only [Pgate, RzSym, Matrix.smul_apply, Matrix.of_apply, smul_eq_mul,
      mul_zero, mul_one, ← Complex.exp_add]
  · rw [show (θ : ℂ)/2 * I + -((θ : ℂ)/2) * I = 0 by ring, Complex.exp_zero]
  · rw [show (θ : ℂ)/2 * I + (θ : ℂ)/2 * I = (θ : ℂ) * I by ring]

lemma u3_mulVec_ket0 (θ φ lam : ℝ) :
    Matrix.mulVec (u3 θ φ lam) ket0 =
      fun b => if b then Complex.exp ((φ : ℂ) * I) * ((Real.sin (θ/2) : ℝ) : ℂ)
               else ((Real.cos (θ/2) : ℝ) : ℂ) := by
  funext b
  cases b <;>
    simp [Matrix.mulVec, Matrix.dotProduct, Fintype.sum_bool, u3, ket0]

lemma u3_zero_fixes_ket0 (lam : ℝ) : Matrix.mulVec (u3 0 0 lam) ket0 = ket0 := by
  funext b
  cases b <;>
    simp [Matrix.mulVec, Matrix.dotProduct, Fintype.sum_bool, u3, ket0]

lemma u3_H_mulVec_ket0 : Matrix.mulVec (u3 (Real.pi/2) 0 Real.pi) ket0 = ketPlus := by
  rw [u3_H_eq]
  funext b
  cases b <;>
    simp [Matrix.mulVec, Matrix.dotProduct, Fintype.sum_bool, Hmat, ket0, ketPlus]

lemma u3_X_mulVec_ket0 :
    Matrix.mulVec (u3 Real.pi (-(Real.pi/2)) (Real.pi/2)) ket0 =
      fun b => (-I) * ket1 b := by
  funext b
  cases b <;>
    simp only [Matrix.mulVec, Matrix.dotProduct, Fintype.sum_bool, u3, Matrix.of_apply,
      ket0, ket1, cexp_real_eval, cexp_real_neg_eval, Complex.ofReal_neg, neg_mul,
      Real.cos_pi_div_two, Real.sin_pi_div_two, Real.cos_neg, Real.sin_neg] <;>
    push_cast <;> ring_nf

lemma bellPair_eq :
    bellPair = fun b0 b1 =>
      if b0 = b1 then (((Real.sqrt 2 : ℝ) : ℂ))⁻¹ else 0 := by
  funext b0 b1
  cases b0 <;> cases b1 <;>
    simp [bellPair, cxSnd, app2fst, Fintype.sum_bool, Hmat, init2]

lemma applyCorrection_cases (v : Bool → ℂ) :
    applyCorrection false false v = v ∧
    applyCorrection false true v = Matrix.mulVec Xmat v ∧
    applyCorrection true false v = Matrix.mulVec Zmat v ∧
    applyCorrection true true v = Matrix.mulVec (Zmat * Xmat) v := by
  refine ⟨?_, ?_, ?_, ?_⟩ <;>
    simp [applyCorrection, Matrix.one_mulVec, Matrix.mulVec_mulVec]

lemma sqrt2C_mul_self : ((Real.sqrt 2 : ℝ) : ℂ) * ((Real.sqrt 2 : ℝ) : ℂ) = 2 := by
  norm_cast
  exact Real.mul_self_sqrt (by norm_num)

lemma sqrt2C_inv_mul_self :
    (((Real.sqrt 2 : ℝ) : ℂ))⁻¹ * (((Real.sqrt 2 : ℝ) : ℂ))⁻¹ = 1/2 := by
  rw [← mul_inv, sqrt2C_mul_self]
  norm_num

lemma teleport_srcState (α β : ℂ) (m0 m1 : Bool) :
    applyCorrection m0 m1
        (fun b2 => app0 Hmat (cx01 (cx12 (app1 Hmat (srcState α β)))) m0 m1 b2)
      = fun b => (1/2 : ℂ) * (if b then β else α) := by
  funext b
  cases m0 <;> cases m1 <;> cases b <;>
    simp only [applyCorrection, app0, app1, cx01, cx12, srcState, Fintype.sum_bool,
      Hmat, Xmat, Zmat, Matrix.mulVec, Matrix.dotProduct, Matrix.one_apply,
      Matrix.of_apply, Bool.xor_false, Bool.xor_true, Bool.false_xor, Bool.true_xor,
      Bool.not_false, Bool.not_true, Bool.false_eq_true, Bool.true_eq_false,
      reduceIte, if_true, if_false, and_true, and_false, true_and, false_and,
      mul_zero, zero_mul, add_zero, zero_add, mul_one, one_mul, neg_mul, mul_neg,
      neg_neg, and_self, not_true, not_false_iff]
  all_goals
    first
      | linear_combination α * sqrt2C_inv_mul_self
      | linear_combination β * sqrt2C_inv_mul_self


lemma prep_eq (θ φ lam : ℝ) :
    prep θ φ lam =
      srcState ((Real.cos (θ/2) : ℝ) : ℂ)
        (Complex.exp ((φ : ℂ) * I) * ((Real.sin (θ/2) : ℝ) : ℂ)) := by
  funext b0 b1 b2
  cases b0 <;> cases b1 <;> cases b2 <;>
    simp only [prep, app0, init3, u3, srcState, Fintype.sum_bool, Matrix.of_apply,
      Bool.false_eq_true, Bool.true_eq_false, and_true, and_false, true_and, false_and,
      and_self, reduceIte, if_true, if_false, mul_zero, zero_mul, add_zero, zero_add,
      mul_one, one_mul]

lemma bobFinal_eq (θ φ lam : ℝ) (m0 m1 : Bool) :
    bobFinal θ φ lam m0 m1 = fun b => (1/2 : ℂ) * inputState θ φ lam b := by
  have h := teleport_srcState ((Real.cos (θ/2) : ℝ) : ℂ)
    (Complex.exp ((φ : ℂ) * I) * ((Real.sin (θ/2) : ℝ) : ℂ)) m0 m1
  show applyCorrection m0 m1 (bobCond θ φ lam m0 m1) = _
  have hb : bobCond θ φ lam m0 m1 =
      fun b2 => app0 Hmat (cx01 (cx12 (app1 Hmat
        (srcState ((Real.cos (θ/2) : ℝ) : ℂ)
          (Complex.exp ((φ : ℂ) * I) * ((Real.sin (θ/2) : ℝ) : ℂ)))))) m0 m1 b2 := by
    funext b2
    rw [bobCond, basisChanged, entangled, prep_eq]
  rw [hb, h]
  funext b
  rw [inputState, u3_mulVec_ket0]

lemma normSq_cexp_real (x : ℝ) : Complex.normSq (Complex.exp ((x : ℂ) * I)) = 1 := by
  rw [cexp_real_eval]
  simp only [Complex.normSq_apply, Complex.add_re, Complex.add_im, Complex.mul_re,
    Complex.mul_im, Complex.ofReal_re, Complex.ofReal_im, Complex.I_re, Complex.I_im]
  nlinarith [Real.sin_sq_add_cos_sq x]

lemma norm2_inputState (θ φ lam : ℝ) : norm2 (inputState θ φ lam) = 1 := by
  rw [inputState, u3_mulVec_ket0]
  simp only [norm2, Fintype.sum_bool, reduceIte, Bool.false_eq_true, if_false, if_true,
    Complex.normSq_mul, normSq_cexp_real, Complex.normSq_ofReal, one_mul]
  nlinarith [Real.sin_sq_add_cos_sq (θ/2)]

lemma u3_norm2_preserved (θ φ lam : ℝ) (ψ : Bool → ℂ) :
    norm2 (Matrix.mulVec (u3 θ φ lam) ψ) = norm2 ψ := by
  have h := u3_adjoint_mul θ φ lam
  have e : ∀ j k, (∑ i : Bool,
      (starRingEnd ℂ) (u3 θ φ lam i j) * u3 θ φ lam i k) =
        (if j = k then 1 else 0) := by
    intro j k
    have := congrArg (fun M => M j k) h
    simpa [Matrix.mul_apply, Matrix.conjTranspose_apply, Matrix.one_apply,
      Complex.star_def] using this
  have e00 := e false false
  have e01 := e false true
  have e10 := e true false
  have e11 := e true true
  simp only [Fintype.sum_bool, reduceIte, Bool.false_eq_true, Bool.true_eq_false,
    if_true, if_false] at e00 e01 e10 e11
  rw [← Complex.ofReal_inj]
  simp only [norm2, Fintype.sum_bool, Complex.ofReal_add, ← Complex.mul_conj,
    Matrix.mulVec, Matrix.dotProduct, map_add, map_mul]
  linear_combination
    ((starRingEnd ℂ) (ψ false) * ψ false) * e00 +
    ((starRingEnd ℂ) (ψ false) * ψ true) * e01 +
    ((starRingEnd ℂ) (ψ true) * ψ false) * e10 +
    ((starRingEnd ℂ) (ψ true) * ψ true) * e11

lemma norm2₃_srcState (α β : ℂ) :
    norm2₃ (srcState α β) = Complex.normSq α + Complex.normSq β := by
  simp only [norm2₃, Fintype.sum_bool, srcState, Bool.false_eq_true, Bool.true_eq_false,
    and_true, and_false, true_and, false_and, and_self, reduceIte, if_true, if_false,
    Complex.normSq_zero, add_zero, zero_add]
  ring

lemma norm2₃_prep (θ φ lam : ℝ) : norm2₃ (prep θ φ lam) = 1 := by
  rw [prep_eq, norm2₃_srcState]
  simp only [Complex.normSq_mul, normSq_cexp_real, Complex.normSq_ofReal, one_mul]
  nlinarith [Real.sin_sq_add_cos_sq (θ/2)]

lemma norm2₃_entangled_src (α β : ℂ) :
    norm2₃ (cx12 (app1 Hmat (srcState α β))) = Complex.normSq α + Complex.normSq β := by
  have h2 : Real.sqrt 2 * Real.sqrt 2 = 2 := Real.mul_self_sqrt (by norm_num)
  simp only [norm2₃, Fintype.sum_bool, cx12, app1, srcState, Hmat, Matrix.of_apply,
    Bool.xor_false, Bool.xor_true, Bool.false_xor, Bool.true_xor, Bool.not_false,
    Bool.not_true, Bool.false_eq_true, Bool.true_eq_false, and_true, and_false,
    true_and, false_and, and_self, reduceIte, if_true, if_false, mul_zero, zero_mul,
    add_zero, zero_add, mul_one, one_mul, Complex.normSq_mul, Complex.normSq_inv,
    Complex.normSq_ofReal, Complex.normSq_zero, h2]
  ring

lemma norm2₃_entangled (θ φ lam : ℝ) : norm2₃ (entangled θ φ lam) = 1 := by
  rw [entangled, prep_eq, norm2₃_entangled_src]
  simp only [Complex.normSq_mul, normSq_cexp_real, Complex.normSq_ofReal, one_mul]
  nlinarith [Real.sin_sq_add_cos_sq (θ/2)]

lemma norm2₃_basisChanged_src (α β : ℂ) :
    norm2₃ (app0 Hmat (cx01 (cx12 (app1 Hmat (srcState α β))))) =
      Complex.normSq α + Complex.normSq β := by
  have h2 : Real.sqrt 2 * Real.sqrt 2 = 2 := Real.mul_self_sqrt (by norm_num)
  simp only [norm2₃, Fintype.sum_bool, app0, cx01, cx12, app1, srcState, Hmat,
    Matrix.of_apply, Bool.xor_false, Bool.xor_true, Bool.false_xor, Bool.true_xor,
    Bool.not_false, Bool.not_true, Bool.false_eq_true, Bool.true_eq_false, and_true,
    and_false, true_and, false_and, and_self, reduceIte, if_true, if_false, mul_zero,
    zero_mul, add_zero, zero_add, mul_one, one_mul, neg_mul, mul_neg, neg_neg,
    Complex.normSq_mul, Complex.normSq_inv, Complex.normSq_neg, Complex.normSq_ofReal,
    Complex.normSq_zero, h2]
  ring

lemma norm2₃_basisChanged (θ φ lam : ℝ) : norm2₃ (basisChanged θ φ lam) = 1 := by
  rw [basisChanged, entangled, prep_eq, norm2₃_basisChanged_src]
  simp only [Complex.normSq_mul, normSq_cexp_real, Complex.normSq_ofReal, one_mul]
  nlinarith [Real.sin_sq_add_cos_sq (θ/2)]

lemma norm2_bobFinal_renormalized (θ φ lam : ℝ) (m0 m1 : Bool) :
    norm2 (fun b => (2 : ℂ) * bobFinal θ φ lam m0 m1 b) = 1 := by
  rw [bobFinal_eq]
  have h : (fun b => (2 : ℂ) * ((1/2 : ℂ) * inputState θ φ lam b))
      = inputState θ φ lam := by
    funext b
    ring
  rw [h, norm2_inputState]

lemma norm2_ketPlus : norm2 ketPlus = 1 := by
  have h2 : Real.sqrt 2 * Real.sqrt 2 = 2 := Real.mul_self_sqrt (by norm_num)
  simp only [norm2, Fintype.sum_bool, ketPlus, Complex.normSq_inv,
    Complex.normSq_ofReal, h2]
  norm_num

lemma u3_zero_on_plus (lam : ℝ) :
    Matrix.mulVec (u3 0 0 lam) ketPlus =
      fun b => if b then Complex.exp ((lam : ℂ) * I) * (((Real.sqrt 2 : ℝ) : ℂ))⁻¹
               else (((Real.sqrt 2 : ℝ) : ℂ))⁻¹ := by
  funext b
  cases b <;>
    simp only [Matrix.mulVec, Matrix.dotProduct, Fintype.sum_bool, u3, Matrix.of_apply,
      ketPlus, zero_div, Real.cos_zero, Real.sin_zero, Complex.ofReal_zero,
      Complex.ofReal_one,
      zero_mul, mul_zero, add_zero, zero_add, one_mul, mul_one, neg_zero,
      Complex.exp_zero, Bool.false_eq_true, reduceIte, if_true, if_false]

/-- C1: for every input angle triple (θ, φ, λ) used to prepare the source qubit
and every classical outcome pair (m0, m1), running the full teleportation
pipeline — prepare on qubit 0 via `u3`, entangle qubits 1 and 2 into the shared
pair, basis-change via CNOT then Hadamard on Alice's qubits, then apply the
outcome-selected correction to Bob's qubit — leaves Bob's conditional state
vector equal to (1/2) · (the originally prepared source state), the 1/2 being
the amplitude of the probability-1/4 outcome branch.  The renormalized
post-measurement state therefore equals the prepared state exactly, i.e. up to
the trivial global phase 1. -/
theorem teleportation_recovers_input (θ φ lam : ℝ) (m0 m1 : Bool) :
    bobFinal θ φ lam m0 m1 = fun b => (1/2 : ℂ) * inputState θ φ lam b :=
  bobFinal_eq θ φ lam m0 m1

/-- C2: the single-qubit rotation `u3` applied by the code equals the spec's
matrix U(θ,φ,λ); each named gate arises from its literal angle triple:
X-rotation Rx(θ) = u3(θ,−π/2,π/2), Y-rotation Ry(θ) = u3(θ,0,0), Z-rotation
(the notebook's diag(1, e^{iθ}) convention) = u3(0,0,θ) — equal to the
symmetric Rz convention up to the global phase e^{iθ/2} —, Hadamard =
u3(π/2,0,π), S = u3(0,0,π/2), T = u3(0,0,π/4). -/
theorem u3_matches_spec_and_named_gates :
    (∀ θ φ lam : ℝ, u3 θ φ lam = Uspec θ φ lam) ∧
    (∀ θ : ℝ, u3 θ (-(Real.pi/2)) (Real.pi/2) = Rx θ) ∧
    (∀ θ : ℝ, u3 θ 0 0 = Ry θ) ∧
    (∀ θ : ℝ, u3 0 0 θ = Pgate θ) ∧
    u3 (Real.pi/2) 0 Real.pi = Hmat ∧
    u3 0 0 (Real.pi/2) = Smat ∧
    u3 0 0 (Real.pi/4) = Tmat ∧
    (∀ θ : ℝ, Pgate θ = Complex.exp (((θ : ℂ)/2) * I) • RzSym θ) :=
  ⟨fun _ _ _ => rfl, u3_Rx_eq, u3_Ry_eq, u3_Pgate_eq, u3_H_eq, u3_S_eq, u3_T_eq,
    Pgate_RzSym⟩

/-- C3: given the two classical measurement bits (m0, m1), the correction step
applies exactly one fixed single-qubit unitary to Bob's qubit — the identity
for (0,0), Pauli-X for (0,1), Pauli-Z for (1,0) and the product Z·X (the
notebook's "ZX": the circuit applies X first, then Z) for (1,1) —
deterministically, as a pure function of (m0, m1) with no randomness and no
retry. -/
theorem correction_selects_fixed_unitary (v : Bool → ℂ) :
    applyCorrection false false v = v ∧
    applyCorrection false true v = Matrix.mulVec Xmat v ∧
    applyCorrection true false v = Matrix.mulVec Zmat v ∧
    applyCorrection true true v = Matrix.mulVec (Zmat * Xmat) v :=
  applyCorrection_cases v

/-- C4: for all angle triples (θ, φ, λ) the matrix U(θ,φ,λ) is unitary:
its conjugate-transpose times itself is the 2×2 identity, exactly, as a
trigonometric identity over the exact reals. -/
theorem u3_unitary (θ φ lam : ℝ) : (u3 θ φ lam)ᴴ * u3 θ φ lam = 1 :=
  u3_adjoint_mul θ φ lam

/-- C5: starting from two qubits in |00⟩, a Hadamard on the first followed by
a CNOT from the first onto the second produces the maximally-entangled pair
(|00⟩ + |11⟩)/√2: amplitude 1/√2 on |00⟩ and |11⟩ and 0 elsewhere. -/
theorem bell_pair_construction :
    bellPair = fun b0 b1 =>
      if b0 = b1 then (((Real.sqrt 2 : ℝ) : ℂ))⁻¹ else 0 :=
  bellPair_eq

/-- C6: U(π,−π/2,π/2) applied to the ground state |0⟩ yields |1⟩ up to a
global phase (X-gate behavior); the phase is −i. -/
theorem u3_x_endpoint_on_ket0 :
    ∃ c : ℂ, Complex.abs c = 1 ∧
      Matrix.mulVec (u3 Real.pi (-(Real.pi/2)) (Real.pi/2)) ket0 =
        fun b => c * ket1 b :=
  ⟨-I, by simp, u3_X_mulVec_ket0⟩

/-- C7: U(π/2,0,π) applied to the ground state |0⟩ yields the uniform
superposition (|0⟩ + |1⟩)/√2 (Hadamard behavior), exactly. -/
theorem u3_hadamard_endpoint_on_ket0 :
    Matrix.mulVec (u3 (Real.pi/2) 0 Real.pi) ket0 = ketPlus :=
  u3_H_mulVec_ket0

/-- C8: every state vector of the pipeline is normalized: applying any
U(θ,φ,λ) to a normalized 2-dimensional state (each movie frame applies it to
|0⟩, or to H|0⟩ when `start_from_plus` is set) yields a normalized state, and
the three-qubit states after preparation, after the entangling step and after
the basis change all have squared norm 1; the post-correction conditional
state, renormalized by its outcome amplitude 1/2, is normalized as well. -/
theorem pipeline_states_normalized (θ φ lam : ℝ) (ψ : Bool → ℂ)
    (h : norm2 ψ = 1) :
    norm2 (Matrix.mulVec (u3 θ φ lam) ψ) = 1 ∧
    norm2 (Matrix.mulVec (u3 θ φ lam) ketPlus) = 1 ∧
    norm2₃ (prep θ φ lam) = 1 ∧
    norm2₃ (entangled θ φ lam) = 1 ∧
    norm2₃ (basisChanged θ φ lam) = 1 ∧
    (∀ m0 m1 : Bool, norm2 (fun b => (2 : ℂ) * bobFinal θ φ lam m0 m1 b) = 1) :=
  ⟨by rw [u3_norm2_preserved, h],
    by rw [u3_norm2_preserved, norm2_ketPlus],
    norm2₃_prep θ φ lam, norm2₃_entangled θ φ lam, norm2₃_basisChanged θ φ lam,
    fun m0 m1 => norm2_bobFinal_renormalized θ φ lam m0 m1⟩

/-- Witness for C8 at the concrete input θ = φ = λ = 0, ψ = |0⟩. -/
theorem pipeline_states_normalized_witness :
    norm2 ket0 = 1 ∧ norm2 (Matrix.mulVec (u3 0 0 0) ket0) = 1 := by
  have h0 : norm2 ket0 = 1 := by
    simp [norm2, Fintype.sum_bool, ket0]
  exact ⟨h0, (pipeline_states_normalized 0 0 0 ket0 h0).1⟩

/-- C10: for every angle λ, U(0,0,λ) fixes the ground state |0⟩ exactly (so
the S and T triples U(0,0,π/2), U(0,0,π/4) do too), which is why the Z, S and
T visualizations first move to (|0⟩+|1⟩)/√2 via a Hadamard
(`start_from_plus=True`): on that state U(0,0,λ) acts by the relative phase
e^{iλ} on the |1⟩ amplitude. -/
theorem z_rotations_fix_ket0 (lam : ℝ) :
    Matrix.mulVec (u3 0 0 lam) ket0 = ket0 ∧
    Matrix.mulVec (u3 0 0 lam) ketPlus =
      (fun b => if b then Complex.exp ((lam : ℂ) * I) * (((Real.sqrt 2 : ℝ) : ℂ))⁻¹
                else (((Real.sqrt 2 : ℝ) : ℂ))⁻¹) :=
  ⟨u3_zero_fixes_ket0 lam, u3_zero_on_plus lam⟩
